import Mathlib

/-
Verification of the seen-listing retention store and scan cycle of the
immosearch repository (check-immo-scout.ts), via a shallow embedding.

The repository keeps, per platform and instance, a JSON file mapping a
listing id to a record with id, url, ISO timestamp and service name.
A JavaScript Map (string keys, insertion ordered) backs the in-memory
store.  We model the Map as an association list of (id, record) pairs in
insertion order, and the ISO timestamp as a natural number (ISO-8601
strings compare exactly like the instants they denote, and the source
always compares them through new Date(x).getTime()).
-/

namespace ImmoSearch

/-- A stored listing record: the object built in checkImmoScoutListings,
with fields id, url, timestamp (modelled as a numeric instant) and
service. -/
structure ListingData where
  id : String
  url : String
  timestamp : Nat
  service : String
deriving DecidableEq, Repr

/-- The in-memory seen-listings store: the entries of the JavaScript Map,
in insertion order. -/
abbrev Store := List (String × ListingData)

/-- A candidate listing scraped from the page: its extracted id and the
full url. -/
structure Candidate where
  id : String
  url : String
deriving DecidableEq, Repr

/-- MAX_SEEN_IDS constant of the source (cap of the persisted store). -/
def MAX_SEEN_IDS : Nat := 100

/-- REMOVE_COUNT constant of the source (used only in the removal log slice). -/
def REMOVE_COUNT : Nat := 70

/-- MAX_RETRIES constant of the source. -/
def MAX_RETRIES : Nat := 3

/-- INITIAL_RETRY_DELAY constant of the source, in milliseconds. -/
def INITIAL_RETRY_DELAY : Nat := 5000

/-- Membership test seen.has(id) of the JavaScript Map, on the entry list. -/
def hasId (m : Store) (i : String) : Bool :=
  m.any (fun p => p.1 == i)

/-- One step of JavaScript Map.set / object property assignment on an
entry list: overwrite in place when the key is present, append otherwise. -/
def mapSet (m : Store) (k : String) (v : ListingData) : Store :=
  if hasId m k then m.map (fun p => if p.1 == k then (k, v) else p)
  else m ++ [(k, v)]

/-- Building a Map (or plain object) from an entry list by repeated set,
as new Map(entries) and Object.fromEntries both do: later entries with a
duplicate key overwrite earlier ones. -/
def dedupEntries (l : List (String × ListingData)) : Store :=
  l.foldl (fun m p => mapSet m p.1 p.2) []

/-- The durable per-scope state: the service file may be absent, hold
text that JSON.parse rejects, or hold a parsed JSON object given by its
entry list. -/
inductive DurableState where
  | absent
  | corrupt
  | obj (entries : List (String × ListingData))
deriving DecidableEq, Repr

/-- Number of records held in durable storage. -/
def durableSize : DurableState → Nat
  | DurableState.absent => 0
  | DurableState.corrupt => 0
  | DurableState.obj l => l.length

/-- loadSeenListings: a missing file and an unparsable file both give an
empty Map; otherwise the Map is built from the entries of the parsed
object.  The source catches the parse error, so the function is total. -/
def loadSeenListings : DurableState → Store
  | DurableState.absent => []
  | DurableState.corrupt => []
  | DurableState.obj l => dedupEntries l

/-- Stable insertion by timestamp descending, modelling one step of the
stable JavaScript Array.prototype.sort with comparator timeB - timeA. -/
def insertByTsDesc (x : String × ListingData) : Store → Store
  | [] => [x]
  | y :: ys =>
      if y.2.timestamp ≤ x.2.timestamp then x :: y :: ys
      else y :: insertByTsDesc x ys

/-- The sort in saveSeenListings: entries sorted by timestamp descending
(newest first); stable, as JavaScript sort is. -/
def sortByTsDesc : Store → Store
  | [] => []
  | x :: xs => insertByTsDesc x (sortByTsDesc xs)

/-- sortedListings of saveSeenListings. -/
def sortedListings (m : Store) : Store :=
  sortByTsDesc m

/-- keptListings of saveSeenListings: sortedListings.slice(0, MAX_SEEN_IDS). -/
def keptListings (maxIds : Nat) (m : Store) : Store :=
  (sortedListings m).take maxIds

/-- removedListings of saveSeenListings: the entries logged as removed,
sortedListings.slice(MAX_SEEN_IDS - REMOVE_COUNT), computed only when the
sorted list exceeds the cap.  It feeds the debug log only. -/
def removedListings (maxIds removeCount : Nat) (m : Store) : Store :=
  if maxIds < (sortedListings m).length then
    (sortedListings m).drop (maxIds - removeCount)
  else []

/-- saveSeenListings: sorts by timestamp descending, keeps the newest
maxIds entries, writes Object.fromEntries(keptListings) to the service
file, and logs removedListings.  Returns the written durable state and
the logged removal list. -/
def saveSeenListings (maxIds removeCount : Nat) (m : Store) :
    DurableState × Store :=
  (DurableState.obj (dedupEntries (keptListings maxIds m)),
   removedListings maxIds removeCount m)

/-! ### Basic lemmas on the store operations -/

theorem hasId_eq_false_of_not_mem {m : Store} {i : String}
    (h : i ∉ m.map Prod.fst) : hasId m i = false := by
  apply List.any_eq_false.mpr
  intro p hp hpi
  have hpeq : p.1 = i := by simpa using hpi
  exact h (hpeq ▸ List.mem_map_of_mem Prod.fst hp)

theorem hasId_eq_true_of_mem {m : Store} {i : String}
    (h : i ∈ m.map Prod.fst) : hasId m i = true := by
  rcases List.mem_map.mp h with ⟨p, hp, hpi⟩
  exact List.any_eq_true.mpr ⟨p, hp, by simp [hpi]⟩

theorem hasId_iff_mem {m : Store} {i : String} :
    hasId m i = true ↔ i ∈ m.map Prod.fst := by
  constructor
  · intro h
    rcases List.any_eq_true.mp h with ⟨p, hp, hpi⟩
    have : p.1 = i := by simpa using hpi
    exact this ▸ List.mem_map_of_mem Prod.fst hp
  · exact hasId_eq_true_of_mem

theorem mapSet_append_of_not_mem {m : Store} {k : String} (v : ListingData)
    (h : hasId m k = false) : mapSet m k v = m ++ [(k, v)] := by
  simp [mapSet, h]

theorem length_mapSet_le (m : Store) (k : String) (v : ListingData) :
    (mapSet m k v).length ≤ m.length + 1 := by
  unfold mapSet
  split
  · simp
  · simp

theorem foldl_mapSet_of_nodup (l : List (String × ListingData)) :
    ∀ acc : Store, ((acc ++ l).map Prod.fst).Nodup →
      l.foldl (fun m p => mapSet m p.1 p.2) acc = acc ++ l := by
  induction l with
  | nil => intro acc _; simp
  | cons p ps ih =>
      intro acc h
      have hkeys : (acc.map Prod.fst ++ p.1 :: ps.map Prod.fst).Nodup := by
        simpa using h
      have hnotin : p.1 ∉ acc.map Prod.fst := by
        rcases List.nodup_append.mp hkeys with ⟨_, _, hdisj⟩
        intro hmem
        exact hdisj hmem (List.mem_cons_self _ _)
      have hset : mapSet acc p.1 p.2 = acc ++ [p] := by
        rw [mapSet_append_of_not_mem p.2 (hasId_eq_false_of_not_mem hnotin)]
      simp only [List.foldl_cons, hset]
      rw [ih (acc ++ [p]) (by simpa [List.append_assoc] using h)]
      simp

theorem dedupEntries_eq_self {l : List (String × ListingData)}
    (h : (l.map Prod.fst).Nodup) : dedupEntries l = l := by
  have := foldl_mapSet_of_nodup l [] (by simpa using h)
  simpa [dedupEntries] using this

theorem length_dedupEntries_le (l : List (String × ListingData)) :
    (dedupEntries l).length ≤ l.length := by
  have haux : ∀ (l : List (String × ListingData)) (acc : Store),
      (l.foldl (fun m p => mapSet m p.1 p.2) acc).length ≤
        acc.length + l.length := by
    intro l
    induction l with
    | nil => intro acc; simp
    | cons p ps ih =>
        intro acc
        simp only [List.foldl_cons]
        calc (ps.foldl (fun m p => mapSet m p.1 p.2) (mapSet acc p.1 p.2)).length
            ≤ (mapSet acc p.1 p.2).length + ps.length := ih _
          _ ≤ (acc.length + 1) + ps.length :=
              Nat.add_le_add_right (length_mapSet_le acc p.1 p.2) _
          _ = acc.length + (ps.length + 1) := by omega
  simpa [dedupEntries] using haux l []

/-! ### Sorting lemmas -/

theorem perm_insertByTsDesc (x : String × ListingData) (l : Store) :
    (insertByTsDesc x l).Perm (x :: l) := by
  induction l with
  | nil => simp [insertByTsDesc]
  | cons y ys ih =>
      simp only [insertByTsDesc]
      split
      · exact List.Perm.refl _
      · exact (ih.cons y).trans (List.Perm.swap x y ys)

theorem perm_sortByTsDesc (l : Store) : (sortByTsDesc l).Perm l := by
  induction l with
  | nil => simp [sortByTsDesc]
  | cons x xs ih =>
      exact (perm_insertByTsDesc x (sortByTsDesc xs)).trans (ih.cons x)

/-- The descending-timestamp order relation the sorted list satisfies. -/
def tsGe (a b : String × ListingData) : Prop :=
  b.2.timestamp ≤ a.2.timestamp

instance : DecidableRel tsGe := fun a b =>
  inferInstanceAs (Decidable (b.2.timestamp ≤ a.2.timestamp))

theorem pairwise_insertByTsDesc (x : String × ListingData) {l : Store}
    (h : l.Pairwise tsGe) : (insertByTsDesc x l).Pairwise tsGe := by
  induction l with
  | nil => simp [insertByTsDesc]
  | cons y ys ih =>
      rcases List.pairwise_cons.mp h with ⟨hy, hys⟩
      simp only [insertByTsDesc]
      split
      · rename_i hle
        refine List.pairwise_cons.mpr ⟨?_, h⟩
        intro b hb
        rcases List.mem_cons.mp hb with hb | hb
        · exact hb ▸ hle
        · exact Nat.le_trans (hy b hb) hle
      · rename_i hgt
        refine List.pairwise_cons.mpr ⟨?_, ih hys⟩
        intro b hb
        rcases List.mem_cons.mp ((perm_insertByTsDesc x ys).mem_iff.mp hb) with hb | hb
        · subst hb
          exact Nat.le_of_lt (Nat.lt_of_not_le hgt)
        · exact hy b hb

theorem pairwise_sortByTsDesc (l : Store) : (sortByTsDesc l).Pairwise tsGe := by
  induction l with
  | nil => simp [sortByTsDesc]
  | cons x xs ih => exact pairwise_insertByTsDesc x ih

theorem keys_keptListings_nodup (maxIds : Nat) {m : Store}
    (h : (m.map Prod.fst).Nodup) :
    ((keptListings maxIds m).map Prod.fst).Nodup := by
  have hperm : ((sortByTsDesc m).map Prod.fst).Perm (m.map Prod.fst) :=
    (perm_sortByTsDesc m).map Prod.fst
  have hsorted : ((sortByTsDesc m).map Prod.fst).Nodup := hperm.nodup_iff.mpr h
  have hk : (keptListings maxIds m).map Prod.fst =
      ((sortByTsDesc m).map Prod.fst).take maxIds := by
    simp [keptListings, sortedListings, List.map_take]
  rw [hk]
  exact List.Nodup.sublist (List.take_sublist _ _) hsorted

/-! ### Scenario data of the spec: records A (t=100), B (t=200), C (t=50) -/

def recA : ListingData := ⟨"A", "urlA", 100, "immoscout"⟩

def recB : ListingData := ⟨"B", "urlB", 200, "immoscout"⟩

def recC : ListingData := ⟨"C", "urlC", 50, "immoscout"⟩

def scenarioStore : Store := [("A", recA), ("B", recB), ("C", recC)]

/-- C1 (amended): for a store with more than maxIds records and distinct
timestamps (and distinct ids, the Map invariant), the records retained by
saveSeenListings are exactly the maxIds newest by timestamp: the written
object is keptListings, keptListings has exactly maxIds elements drawn
from the store, and every retained record is strictly newer than every
record of the store that is not retained.  The removeCount parameter does
not influence the retained set (it only selects what the removal log
prints), so eviction keeps MAX_SIZE records, not MAX_SIZE - REMOVE_COUNT. -/
theorem C1_eviction_formula (maxIds removeCount : Nat) (m : Store)
    (hkeys : (m.map Prod.fst).Nodup)
    (hts : (m.map (fun p => p.2.timestamp)).Nodup)
    (hlen : maxIds < m.length) :
    (saveSeenListings maxIds removeCount m).1 =
        DurableState.obj (keptListings maxIds m) ∧
    (keptListings maxIds m).length = maxIds ∧
    (∀ x ∈ keptListings maxIds m, x ∈ m) ∧
    (∀ x ∈ keptListings maxIds m, ∀ y ∈ m, y ∉ keptListings maxIds m →
        y.2.timestamp < x.2.timestamp) := by
  have hperm := perm_sortByTsDesc m
  have hkept : keptListings maxIds m = (sortByTsDesc m).take maxIds := rfl
  refine ⟨?_, ?_, ?_, ?_⟩
  · simp only [saveSeenListings]
    rw [dedupEntries_eq_self (keys_keptListings_nodup maxIds hkeys)]
  · rw [hkept, List.length_take, hperm.length_eq]
    exact Nat.min_eq_left (Nat.le_of_lt hlen)
  · intro x hx
    rw [hkept] at hx
    exact hperm.mem_iff.mp (List.mem_of_mem_take hx)
  · intro x hx y hy hynot
    rw [hkept] at hx
    have hysort : y ∈ sortByTsDesc m := hperm.mem_iff.mpr hy
    have hsplit : sortByTsDesc m =
        (sortByTsDesc m).take maxIds ++ (sortByTsDesc m).drop maxIds :=
      (List.take_append_drop _ _).symm
    have hydrop : y ∈ (sortByTsDesc m).drop maxIds := by
      rcases List.mem_append.mp (hsplit ▸ hysort) with h | h
      · exact absurd h (hkept ▸ hynot)
      · exact h
    have hpw := pairwise_sortByTsDesc m
    rw [hsplit] at hpw
    rcases List.pairwise_append.mp hpw with ⟨_, _, hcross⟩
    have hle : y.2.timestamp ≤ x.2.timestamp := hcross x hx y hydrop
    have htssorted : ((sortByTsDesc m).map (fun p => p.2.timestamp)).Nodup :=
      ((hperm.map _).nodup_iff).mpr hts
    have hmapsplit : (sortByTsDesc m).map (fun p => p.2.timestamp) =
        ((sortByTsDesc m).take maxIds).map (fun p => p.2.timestamp) ++
          ((sortByTsDesc m).drop maxIds).map (fun p => p.2.timestamp) := by
      conv_lhs => rw [hsplit]
      rw [List.map_append]
    rw [hmapsplit] at htssorted
    rcases List.nodup_append.mp htssorted with ⟨_, _, hdisj⟩
    have hne : x.2.timestamp ≠ y.2.timestamp := by
      intro heq
      exact hdisj (List.mem_map_of_mem _ hx)
        (heq ▸ List.mem_map_of_mem _ hydrop)
    exact Nat.lt_of_le_of_ne hle (fun h => hne h.symm)

/-- C1 witness: the hypotheses of C1_eviction_formula hold for the
scenario store with maxIds = 2 and removeCount = 1, and the conclusion
follows by applying the theorem there. -/
theorem C1_eviction_witness :
    ((scenarioStore.map Prod.fst).Nodup ∧
      (scenarioStore.map (fun p => p.2.timestamp)).Nodup ∧
      2 < scenarioStore.length) ∧
    ((saveSeenListings 2 1 scenarioStore).1 =
        DurableState.obj (keptListings 2 scenarioStore) ∧
      (keptListings 2 scenarioStore).length = 2 ∧
      (∀ x ∈ keptListings 2 scenarioStore, x ∈ scenarioStore) ∧
      (∀ x ∈ keptListings 2 scenarioStore, ∀ y ∈ scenarioStore,
          y ∉ keptListings 2 scenarioStore → y.2.timestamp < x.2.timestamp)) :=
  ⟨⟨by decide, by decide, by decide⟩,
    C1_eviction_formula 2 1 scenarioStore (by decide) (by decide) (by decide)⟩

/-- C1 counterexample: for the spec scenario, store A t=100, B t=200,
C t=50 with MAX_SIZE = 2 and REMOVE_COUNT = 1, persist retains B and A,
not exactly B as the claim states: the retained set is the 2 newest, not
MAX_SIZE - REMOVE_COUNT = 1 newest. -/
theorem C1_eviction_counterexample :
    (saveSeenListings 2 1 scenarioStore).1 =
      DurableState.obj [("B", recB), ("A", recA)] ∧
    (saveSeenListings 2 1 scenarioStore).1 ≠ DurableState.obj [("B", recB)] :=
  ⟨by decide, by decide⟩

/-- C2: after any persist, the number of records written to durable
storage is at most MAX_SEEN_IDS: keptListings truncates to MAX_SEEN_IDS
and building the written object cannot enlarge it. -/
theorem C2_cap_invariant (m : Store) :
    durableSize (saveSeenListings MAX_SEEN_IDS REMOVE_COUNT m).1 ≤
      MAX_SEEN_IDS := by
  have h1 : (dedupEntries (keptListings MAX_SEEN_IDS m)).length ≤
      (keptListings MAX_SEEN_IDS m).length := length_dedupEntries_le _
  have h2 : (keptListings MAX_SEEN_IDS m).length ≤ MAX_SEEN_IDS := by
    simp [keptListings, List.length_take]
  simpa [saveSeenListings, durableSize] using Nat.le_trans h1 h2

/-- C3: persist followed by load yields a store whose contains behavior
agrees exactly with the set of ids retained by persist (the eviction
already applied): hasId on the reloaded store is membership in the keys
of keptListings. -/
theorem C3_round_trip (m : Store) (i : String)
    (hkeys : (m.map Prod.fst).Nodup) :
    (hasId (loadSeenListings (saveSeenListings MAX_SEEN_IDS REMOVE_COUNT m).1)
        i = true ↔
      i ∈ (keptListings MAX_SEEN_IDS m).map Prod.fst) := by
  have hknd := keys_keptListings_nodup MAX_SEEN_IDS hkeys
  have h1 : dedupEntries (keptListings MAX_SEEN_IDS m) =
      keptListings MAX_SEEN_IDS m := dedupEntries_eq_self hknd
  have hload : loadSeenListings (saveSeenListings MAX_SEEN_IDS REMOVE_COUNT m).1 =
      keptListings MAX_SEEN_IDS m := by
    show dedupEntries (dedupEntries (keptListings MAX_SEEN_IDS m)) = _
    rw [h1, h1]
  rw [hload]
  exact hasId_iff_mem

/-- C3 witness: applying the round-trip theorem to the scenario store and
the id of record B. -/
theorem C3_round_trip_witness :
    (scenarioStore.map Prod.fst).Nodup ∧
    (hasId (loadSeenListings
        (saveSeenListings MAX_SEEN_IDS REMOVE_COUNT scenarioStore).1) "B" = true ↔
      "B" ∈ (keptListings MAX_SEEN_IDS scenarioStore).map Prod.fst) :=
  ⟨by decide, C3_round_trip scenarioStore "B" (by decide)⟩

/-- C4: loading an absent service file or a file whose content JSON.parse
rejects returns the empty store; loadSeenListings is a total function, so
neither condition raises to the caller. -/
theorem C4_corrupt_recovery :
    loadSeenListings DurableState.absent = [] ∧
    loadSeenListings DurableState.corrupt = [] :=
  ⟨rfl, rfl⟩

/-! ### The scan cycle over candidates

checkImmoScoutListings loads the seen Map, copies it to newSeen, and for
each scraped listing whose id the ORIGINAL seen Map does not contain,
pushes the full url onto newListings and sets the record in newSeen; at
the end it calls saveSeenListings.  All records of one cycle receive the
wall-clock instant of the cycle as timestamp (the source stamps each with
new Date() during one fast loop). -/

/-- The record stored for a newly discovered candidate. -/
def newRecord (c : Candidate) (now : Nat) : ListingData :=
  ⟨c.id, c.url, now, "immoscout"⟩

/-- The per-listing loop of checkImmoScoutListings: walks the scraped
candidates, accumulating newSeen (second component); returns the new
candidates in fetch order and the final newSeen Map.  Membership is
tested against the original seen Map, exactly as the source does. -/
def processGo (seen : Store) (now : Nat) : List Candidate → Store → List Candidate × Store
  | [], newSeen => ([], newSeen)
  | c :: cs, newSeen =>
      if hasId seen c.id then processGo seen now cs newSeen
      else
        let r := processGo seen now cs (mapSet newSeen c.id (newRecord c now))
        (c :: r.1, r.2)

/-- processListings: the loop started on newSeen = new Map(seen). -/
def processListings (seen : Store) (now : Nat) (cands : List Candidate) :
    List Candidate × Store :=
  processGo seen now cands seen

/-- One scan cycle at instant now, as run per platform: if the page shows
no listings the function returns early without saving; otherwise the
candidates are diffed against the loaded store, newSeen is saved, and the
next cycle will load the written file.  Returns the notified new
candidates and the store the next cycle loads. -/
def cycleOnce (cands : List Candidate) (now : Nat) (seen : Store) :
    List Candidate × Store :=
  if cands.isEmpty then ([], seen)
  else
    let pr := processListings seen now cands
    (pr.1, loadSeenListings (saveSeenListings MAX_SEEN_IDS REMOVE_COUNT pr.2).1)

/-- Iterated scan cycles: the adapter returns the same candidate list in
every cycle; clock holds the instant of each cycle.  Produces the list of
new (hence notified) candidates of each cycle. -/
def runCycles (cands : List Candidate) : List Nat → Store → List (List Candidate)
  | [], _ => []
  | now :: rest, seen =>
      let r := cycleOnce cands now seen
      r.1 :: runCycles cands rest r.2

/-! ### Lemmas about the cycle -/

theorem processGo_of_allSeen {seen : Store} {now : Nat} {cands : List Candidate}
    (h : ∀ c ∈ cands, hasId seen c.id = true) :
    ∀ acc, processGo seen now cands acc = ([], acc) := by
  induction cands with
  | nil => intro acc; rfl
  | cons c cs ih =>
      intro acc
      simp only [processGo, h c (List.mem_cons_self c cs)]
      exact ih (fun x hx => h x (List.mem_cons_of_mem c hx)) acc

theorem processGo_of_fresh (now : Nat) {cands : List Candidate}
    (h1 : (cands.map Candidate.id).Nodup) :
    ∀ acc, (∀ c ∈ cands, hasId acc c.id = false) →
      processGo [] now cands acc =
        (cands, acc ++ cands.map (fun c => (c.id, newRecord c now))) := by
  induction cands with
  | nil => intro acc _; simp [processGo]
  | cons c cs ih =>
      intro acc hacc
      have hseen : hasId ([] : Store) c.id = false := rfl
      have h1c : (c.id :: cs.map Candidate.id).Nodup := by
        simpa only [List.map_cons] using h1
      have hnotmem : c.id ∉ cs.map Candidate.id := (List.nodup_cons.mp h1c).1
      have hndtail : (cs.map Candidate.id).Nodup := (List.nodup_cons.mp h1c).2
      have hset : mapSet acc c.id (newRecord c now) =
          acc ++ [(c.id, newRecord c now)] :=
        mapSet_append_of_not_mem _ (hacc c (List.mem_cons_self c cs))
      have hacc2 : ∀ x ∈ cs, hasId (acc ++ [(c.id, newRecord c now)]) x.id = false := by
        intro x hx
        have h1x : hasId acc x.id = false := hacc x (List.mem_cons_of_mem c hx)
        have h2x : (c.id == x.id) = false := by
          simp only [beq_eq_false_iff_ne, ne_eq]
          intro heq
          exact hnotmem (heq ▸ List.mem_map_of_mem Candidate.id hx)
        simp only [hasId] at h1x ⊢
        rw [List.any_append, h1x]
        simp [h2x]
      simp only [processGo, hseen, Bool.false_eq_true, if_false, hset]
      rw [ih hndtail (acc ++ [(c.id, newRecord c now)]) hacc2]
      simp

theorem hasId_eq_of_perm {l1 l2 : Store} (h : l1.Perm l2) (i : String) :
    hasId l1 i = hasId l2 i := by
  simp only [hasId]
  cases hb : l2.any (fun p => p.1 == i) with
  | true =>
      rcases List.any_eq_true.mp hb with ⟨x, hx, hpx⟩
      exact List.any_eq_true.mpr ⟨x, h.mem_iff.mpr hx, hpx⟩
  | false =>
      cases ha : l1.any (fun p => p.1 == i) with
      | false => rfl
      | true =>
          rcases List.any_eq_true.mp ha with ⟨x, hx, hpx⟩
          have hx2 : l2.any (fun p => p.1 == i) = true :=
            List.any_eq_true.mpr ⟨x, h.mem_iff.mp hx, hpx⟩
          rw [hb] at hx2
          exact hx2.symm

/-- The invariant carried between cycles once every candidate id is in
the store: the store keys are distinct, the store fits under the cap, and
every candidate id is present. -/
theorem runCycles_of_allSeen (cands : List Candidate) :
    ∀ (clock : List Nat) (s : Store), (s.map Prod.fst).Nodup →
      s.length ≤ MAX_SEEN_IDS → (∀ c ∈ cands, hasId s c.id = true) →
      runCycles cands clock s = clock.map (fun _ => []) := by
  intro clock
  induction clock with
  | nil => intro s _ _ _; rfl
  | cons now rest ih =>
      intro s hnd hlen hall
      by_cases hc : cands.isEmpty
      · have hcyc : cycleOnce cands now s = ([], s) := by
          simp [cycleOnce, hc]
        simp only [runCycles, hcyc]
        rw [ih s hnd hlen hall]
        rfl
      · have hproc : processListings s now cands = ([], s) :=
          processGo_of_allSeen hall s
        have hsortkeys : ((sortByTsDesc s).map Prod.fst).Nodup :=
          ((perm_sortByTsDesc s).map Prod.fst).nodup_iff.mpr hnd
        have htake : (sortByTsDesc s).take MAX_SEEN_IDS = sortByTsDesc s :=
          List.take_of_length_le (by rw [(perm_sortByTsDesc s).length_eq]; exact hlen)
        have hkept : keptListings MAX_SEEN_IDS s = sortByTsDesc s := by
          simp [keptListings, sortedListings, htake]
        have hnext : loadSeenListings (saveSeenListings MAX_SEEN_IDS REMOVE_COUNT s).1 =
            sortByTsDesc s := by
          show dedupEntries (dedupEntries (keptListings MAX_SEEN_IDS s)) = _
          rw [hkept, dedupEntries_eq_self hsortkeys, dedupEntries_eq_self hsortkeys]
        have hcyc : cycleOnce cands now s = ([], sortByTsDesc s) := by
          simp only [cycleOnce, hc, if_false, hproc, hnext]
          simp
        simp only [runCycles, hcyc]
        rw [ih (sortByTsDesc s) hsortkeys
          (by rw [(perm_sortByTsDesc s).length_eq]; exact hlen)
          (fun c hc2 => by
            rw [hasId_eq_of_perm (perm_sortByTsDesc s) c.id]; exact hall c hc2)]
        rfl

theorem countP_id_eq_one {cands : List Candidate}
    (h1 : (cands.map Candidate.id).Nodup) {c : Candidate} (hc : c ∈ cands) :
    cands.countP (fun x => x.id == c.id) = 1 := by
  induction cands with
  | nil => cases hc
  | cons d ds ih =>
      have h1c : (d.id :: ds.map Candidate.id).Nodup := by
        simpa only [List.map_cons] using h1
      have hnotmem : d.id ∉ ds.map Candidate.id := (List.nodup_cons.mp h1c).1
      have hndtail : (ds.map Candidate.id).Nodup := (List.nodup_cons.mp h1c).2
      rcases List.mem_cons.mp hc with hcd | hcds
      · subst hcd
        have hzero : ds.countP (fun x => x.id == c.id) = 0 := by
          apply List.countP_eq_zero.mpr
          intro x hx hbeq
          have hxc : x.id = c.id := by simpa using hbeq
          exact hnotmem (hxc ▸ List.mem_map_of_mem Candidate.id hx)
        rw [List.countP_cons, hzero]
        simp
      · have hne : (d.id == c.id) = false := by
          have hmem : c.id ∈ ds.map Candidate.id :=
            List.mem_map_of_mem Candidate.id hcds
          simp only [beq_eq_false_iff_ne, ne_eq]
          intro heq
          exact hnotmem (heq ▸ hmem)
        rw [List.countP_cons, ih hndtail hcds, hne]
        simp

theorem flatten_map_nil {α β : Type} (l : List α) :
    (l.map (fun _ => ([] : List β))).flatten = [] := by
  induction l with
  | nil => rfl
  | cons x xs ih => simp [ih]

theorem cycleOnce_fresh (cands : List Candidate) (now : Nat)
    (h1 : (cands.map Candidate.id).Nodup) (h2 : cands.length ≤ MAX_SEEN_IDS)
    (hne : cands.isEmpty = false) :
    cycleOnce cands now [] =
      (cands, sortByTsDesc (cands.map (fun c => (c.id, newRecord c now)))) := by
  have hfresh := processGo_of_fresh now h1 [] (fun c _ => rfl)
  have hproc : processListings [] now cands =
      (cands, cands.map (fun c => (c.id, newRecord c now))) := by
    simpa [processListings] using hfresh
  have hkeys : (cands.map (fun c => (c.id, newRecord c now))).map Prod.fst =
      cands.map Candidate.id := by
    simp [List.map_map, Function.comp]
  have hknd : ((cands.map (fun c => (c.id, newRecord c now))).map Prod.fst).Nodup := by
    rw [hkeys]; exact h1
  have hsortkeys : ((sortByTsDesc (cands.map (fun c => (c.id, newRecord c now)))).map
      Prod.fst).Nodup :=
    ((perm_sortByTsDesc _).map Prod.fst).nodup_iff.mpr hknd
  have hlen : (cands.map (fun c => (c.id, newRecord c now))).length ≤ MAX_SEEN_IDS := by
    rw [List.length_map]; exact h2
  have htake : (sortByTsDesc (cands.map (fun c => (c.id, newRecord c now)))).take
      MAX_SEEN_IDS = sortByTsDesc (cands.map (fun c => (c.id, newRecord c now))) :=
    List.take_of_length_le (by rw [(perm_sortByTsDesc _).length_eq]; exact hlen)
  have hnext : loadSeenListings (saveSeenListings MAX_SEEN_IDS REMOVE_COUNT
      (cands.map (fun c => (c.id, newRecord c now)))).1 =
      sortByTsDesc (cands.map (fun c => (c.id, newRecord c now))) := by
    show dedupEntries (dedupEntries (keptListings MAX_SEEN_IDS _)) = _
    have hkept : keptListings MAX_SEEN_IDS (cands.map (fun c => (c.id, newRecord c now))) =
        sortByTsDesc (cands.map (fun c => (c.id, newRecord c now))) := by
      simp [keptListings, sortedListings, htake]
    rw [hkept, dedupEntries_eq_self hsortkeys, dedupEntries_eq_self hsortkeys]
  simp only [cycleOnce, hne, Bool.false_eq_true, if_false, hproc, hnext]

/-- C5 (amended): starting from an empty store, when the adapter returns
the same candidate list (distinct ids, at most MAX_SEEN_IDS of them, so
no eviction occurs) in every cycle, only the first cycle notifies: the
first cycle notifies exactly the candidate list and every later cycle
notifies nothing, so across the whole sequence the notifier runs exactly
once per distinct listing id, regardless of the cycle count. -/
theorem C5_idempotent_dedup (cands : List Candidate) (t : Nat) (ts : List Nat)
    (h1 : (cands.map Candidate.id).Nodup) (h2 : cands.length ≤ MAX_SEEN_IDS) :
    runCycles cands (t :: ts) [] = cands :: ts.map (fun _ => []) ∧
    ∀ c ∈ cands,
      ((runCycles cands (t :: ts) []).flatten.countP (fun x => x.id == c.id)) = 1 := by
  have hmain : runCycles cands (t :: ts) [] = cands :: ts.map (fun _ => []) := by
    by_cases hc : cands.isEmpty = true
    · have hcands : cands = [] := List.isEmpty_iff.mp hc
      subst hcands
      have hcyc : cycleOnce [] t ([] : Store) = ([], []) := by
        simp [cycleOnce]
      simp only [runCycles, hcyc]
      rw [runCycles_of_allSeen [] ts [] (by simp) (by simp [MAX_SEEN_IDS])
        (fun c hc2 => absurd hc2 (List.not_mem_nil c))]
    · have hne : cands.isEmpty = false := Bool.eq_false_iff.mpr hc
      have hcyc := cycleOnce_fresh cands t h1 h2 hne
      simp only [runCycles, hcyc]
      have hkeys : (cands.map (fun c => (c.id, newRecord c t))).map Prod.fst =
          cands.map Candidate.id := by
        simp [List.map_map, Function.comp]
      have hknd : ((cands.map (fun c => (c.id, newRecord c t))).map Prod.fst).Nodup := by
        rw [hkeys]; exact h1
      have hsortkeys : ((sortByTsDesc (cands.map (fun c => (c.id, newRecord c t)))).map
          Prod.fst).Nodup :=
        ((perm_sortByTsDesc _).map Prod.fst).nodup_iff.mpr hknd
      have hsortlen : (sortByTsDesc (cands.map (fun c => (c.id, newRecord c t)))).length ≤
          MAX_SEEN_IDS := by
        rw [(perm_sortByTsDesc _).length_eq, List.length_map]; exact h2
      have hall : ∀ c ∈ cands,
          hasId (sortByTsDesc (cands.map (fun c => (c.id, newRecord c t)))) c.id = true := by
        intro c hcmem
        rw [hasId_eq_of_perm (perm_sortByTsDesc _) c.id]
        apply hasId_eq_true_of_mem
        rw [hkeys]
        exact List.mem_map_of_mem Candidate.id hcmem
      rw [runCycles_of_allSeen cands ts _ hsortkeys hsortlen hall]
  refine ⟨hmain, ?_⟩
  intro c hcmem
  rw [hmain]
  rw [List.flatten_cons, flatten_map_nil, List.append_nil]
  exact countP_id_eq_one h1 hcmem

/-- C5 witness: one candidate, two cycles: the first cycle notifies it,
the second notifies nothing, one notification in total. -/
theorem C5_idempotent_dedup_witness :
    (((([⟨"1", "u1"⟩] : List Candidate)).map Candidate.id).Nodup ∧
      ([⟨"1", "u1"⟩] : List Candidate).length ≤ MAX_SEEN_IDS) ∧
    (runCycles [⟨"1", "u1"⟩] [0, 1] [] = [⟨"1", "u1"⟩] :: [1].map (fun _ => []) ∧
      ∀ c ∈ ([⟨"1", "u1"⟩] : List Candidate),
        ((runCycles [⟨"1", "u1"⟩] [0, 1] []).flatten.countP
          (fun x => x.id == c.id)) = 1) :=
  ⟨⟨by decide, by decide⟩,
    C5_idempotent_dedup [⟨"1", "u1"⟩] 0 [1] (by decide) (by decide)⟩

/-- The 101 distinct candidates with ids 0 to 100 used to exhibit
renotification after eviction. -/
def c101 : List Candidate :=
  (List.range 101).map (fun i => ⟨toString i, toString i⟩)

set_option maxRecDepth 10000 in
/-- C5 counterexample: with the fixed candidate set c101 of 101 distinct
listings returned in two consecutive cycles from an empty store, the
first persist evicts one of the 101 records (cap MAX_SEEN_IDS = 100), so
the evicted id 100 is reported as new again in the second cycle: the
notifier runs twice for that id across the sequence, not exactly once as
the claim states. -/
theorem C5_dedup_counterexample :
    ((runCycles c101 [0, 1] []).flatten.countP (fun x => x.id == "100")) = 2 ∧
    ¬ ((runCycles c101 [0, 1] []).flatten.countP (fun x => x.id == "100")) = 1 := by
  have h : ((runCycles c101 [0, 1] []).flatten.countP (fun x => x.id == "100")) = 2 := by
    decide
  exact ⟨h, by rw [h]; decide⟩

/-! ### Event trace of one cycle of checkAllServices

checkImmoScoutListings upserts each new listing into newSeen during its
loop and then calls saveSeenListings before returning; only afterwards
does checkAllServices send the Telegram messages: first a header, then
one message per new listing.  sendTelegramMessage awaits fetch without
any try around it, so a rejected delivery aborts the remaining messages
of the cycle and propagates to the catch of the caller of
checkAllServices, which logs the failed check.  A cycle whose page shows
zero listings returns early, before saveSeenListings. -/

inductive Event where
  | upsert (id : String)
  | persist
  | notify (msg : String)
  | notifyFail (msg : String)
  | logError
deriving DecidableEq, Repr

def isNotify : Event → Bool
  | Event.notify _ => true
  | _ => false

def isPersist : Event → Bool
  | Event.persist => true
  | _ => false

/-- The header message of checkAllServices. -/
def headerMessage (n : Nat) : String :=
  "🆕 Neue Wohnungen gefunden (" ++ toString n ++ " insgesamt):"

/-- The per-listing message of checkAllServices for an ImmoScout24
listing: emoji, service, index, total and url. -/
def listingMessage (idx total : Nat) (url : String) : String :=
  "🏠 ImmoScout24 - Wohnung " ++ toString idx ++ "/" ++ toString total ++
    ":\n" ++ url

/-- The Telegram messages a cycle sends: nothing when no listing is new,
otherwise the header followed by one message per new listing in fetch
order. -/
def cycleMessages (seen : Store) (now : Nat) (cands : List Candidate) : List String :=
  let newCands := (processListings seen now cands).1
  if newCands.isEmpty then []
  else
    headerMessage newCands.length ::
      (newCands.enum.map (fun p => listingMessage (p.1 + 1) newCands.length p.2.url))

/-- The message loop of checkAllServices: each sendTelegramMessage call
either succeeds (ok returns true) or rejects; a rejection stops the loop
and the exception escapes (second component false). -/
def notifyLoop (ok : String → Bool) : List String → List Event × Bool
  | [] => ([], true)
  | m :: ms =>
      if ok m then
        let r := notifyLoop ok ms
        (Event.notify m :: r.1, r.2)
      else ([Event.notifyFail m], false)

/-- The observable event trace of one checkAllServices cycle for the
ImmoScout24 platform: empty candidate list means early return before the
save; otherwise the upserts of the scan loop, the save, the message loop,
and the catch of the caller logging a failed check when a delivery
rejected. -/
def cycleTrace (seen : Store) (now : Nat) (cands : List Candidate)
    (ok : String → Bool) : List Event :=
  if cands.isEmpty then []
  else
    let pr := processListings seen now cands
    let nl := notifyLoop ok (cycleMessages seen now cands)
    pr.1.map (fun c => Event.upsert c.id) ++ [Event.persist] ++ nl.1 ++
      (if nl.2 then [] else [Event.logError])

/-- True when no notify event occurs at or after the first persist event:
the order the claim C6 asserts. -/
def notifyBeforePersist (tr : List Event) : Bool :=
  !((tr.dropWhile (fun e => !(isPersist e))).any isNotify)

/-- True when no notify event occurs before the first persist event: the
order the code actually implements. -/
def persistBeforeNotify (tr : List Event) : Bool :=
  (tr.takeWhile (fun e => !(isPersist e))).all (fun e => !(isNotify e))

theorem persistBeforeNotify_shape (us : List Candidate) (rest : List Event) :
    persistBeforeNotify
      (us.map (fun c => Event.upsert c.id) ++ [Event.persist] ++ rest) = true := by
  induction us with
  | nil => simp [persistBeforeNotify, List.takeWhile_cons, isPersist]
  | cons c cs ih =>
      simp only [List.map_cons, List.cons_append, List.nil_append,
        persistBeforeNotify, List.takeWhile_cons, isPersist, isNotify,
        Bool.not_false, Bool.not_true, if_true, List.all_cons,
        Bool.true_and] at ih ⊢
      exact ih

/-- C6 (amended): in every cycle, PERSISTING precedes NOTIFYING: each new
listing is upserted into the store and the store is persisted before any
notification is delivered, so no notify event occurs before the persist
event in the cycle trace. -/
theorem C6_persist_precedes_notify (seen : Store) (now : Nat)
    (cands : List Candidate) (ok : String → Bool) :
    persistBeforeNotify (cycleTrace seen now cands ok) = true := by
  by_cases hc : cands.isEmpty = true
  · simp [cycleTrace, hc, persistBeforeNotify]
  · have hne : cands.isEmpty = false := Bool.eq_false_iff.mpr hc
    simp only [cycleTrace, hne, Bool.false_eq_true, if_false]
    rw [List.append_assoc]
    exact persistBeforeNotify_shape _ _

/-- C6 counterexample: a cycle with one new listing and successful
deliveries produces the trace upsert, persist, notify header, notify
listing, in which notification does not precede persistence, refuting
the claimed NOTIFYING-before-PERSISTING order. -/
theorem C6_order_counterexample :
    cycleTrace [] 0 [⟨"1", "u1"⟩] (fun _ => true) =
      [Event.upsert "1", Event.persist, Event.notify (headerMessage 1),
        Event.notify (listingMessage 1 1 "u1")] ∧
    notifyBeforePersist (cycleTrace [] 0 [⟨"1", "u1"⟩] (fun _ => true)) = false :=
  ⟨by decide, by decide⟩

theorem notifyLoop_append (ok : String → Bool) (l1 : List String) (f : String)
    (l2 : List String) (h1 : ∀ x ∈ l1, ok x = true) (hf : ok f = false) :
    notifyLoop ok (l1 ++ f :: l2) =
      (l1.map Event.notify ++ [Event.notifyFail f], false) := by
  induction l1 with
  | nil => simp [notifyLoop, hf]
  | cons m ms ih =>
      have hm : ok m = true := h1 m (List.mem_cons_self m ms)
      simp only [List.cons_append, notifyLoop, hm, if_true, List.append_eq]
      rw [ih (fun x hx => h1 x (List.mem_cons_of_mem m hx))]
      simp

theorem notify_mem_shape {m : String} {A : List Candidate} {l1 : List String}
    {f : String}
    (hmem : Event.notify m ∈ A.map (fun c => Event.upsert c.id) ++
      [Event.persist] ++ (l1.map Event.notify ++ [Event.notifyFail f]) ++
      [Event.logError]) : m ∈ l1 := by
  rcases List.mem_append.mp hmem with h | h
  · rcases List.mem_append.mp h with h2 | h2
    · rcases List.mem_append.mp h2 with h3 | h3
      · rcases List.mem_map.mp h3 with ⟨c, _, hceq⟩
        exact Event.noConfusion hceq
      · exact Event.noConfusion (List.mem_singleton.mp h3)
    · rcases List.mem_append.mp h2 with h3 | h3
      · rcases List.mem_map.mp h3 with ⟨x, hx, hxeq⟩
        have hxm : x = m := by simpa using hxeq
        exact hxm ▸ hx
      · exact Event.noConfusion (List.mem_singleton.mp h3)
  · exact Event.noConfusion (List.mem_singleton.mp h)

theorem notifyFail_mem_shape {m : String} {A : List Candidate}
    {l1 : List String} {f : String}
    (hmem : Event.notifyFail m ∈ A.map (fun c => Event.upsert c.id) ++
      [Event.persist] ++ (l1.map Event.notify ++ [Event.notifyFail f]) ++
      [Event.logError]) : m = f := by
  rcases List.mem_append.mp hmem with h | h
  · rcases List.mem_append.mp h with h2 | h2
    · rcases List.mem_append.mp h2 with h3 | h3
      · rcases List.mem_map.mp h3 with ⟨c, _, hceq⟩
        exact Event.noConfusion hceq
      · exact Event.noConfusion (List.mem_singleton.mp h3)
    · rcases List.mem_append.mp h2 with h3 | h3
      · rcases List.mem_map.mp h3 with ⟨x, _, hxeq⟩
        exact Event.noConfusion hxeq
      · have hmf : Event.notifyFail m = Event.notifyFail f :=
          List.mem_singleton.mp h3
        simpa using hmf
  · exact Event.noConfusion (List.mem_singleton.mp h)

/-- C7 (amended): a notification delivery failure does not block the
persist step, because persistence happens before notification; it does
however abort the remaining notifications of the same cycle and
propagates to the cycle-level catch, which logs the failed check: if the
messages of a cycle split as l1 followed by f followed by l2, every
message of l1 is delivered and f rejects, then the trace contains the
persist event and the logError event, and no message of l2 is attempted,
neither sent nor failed. -/
theorem C7_failure_isolation (seen : Store) (now : Nat) (cands : List Candidate)
    (ok : String → Bool) (l1 : List String) (f : String) (l2 : List String)
    (hm : cycleMessages seen now cands = l1 ++ f :: l2)
    (h1 : ∀ x ∈ l1, ok x = true) (hf : ok f = false)
    (hnd : (l1 ++ f :: l2).Nodup) :
    Event.persist ∈ cycleTrace seen now cands ok ∧
    Event.logError ∈ cycleTrace seen now cands ok ∧
    ∀ m ∈ l2, Event.notify m ∉ cycleTrace seen now cands ok ∧
      Event.notifyFail m ∉ cycleTrace seen now cands ok := by
  by_cases hc : cands.isEmpty = true
  · exfalso
    have hcands : cands = [] := List.isEmpty_iff.mp hc
    subst hcands
    have hmsg : cycleMessages seen now [] = [] := rfl
    rw [hmsg] at hm
    exact List.cons_ne_nil f l2 (List.append_eq_nil.mp hm.symm).2
  · have hne : cands.isEmpty = false := Bool.eq_false_iff.mpr hc
    have hnl : notifyLoop ok (cycleMessages seen now cands) =
        (l1.map Event.notify ++ [Event.notifyFail f], false) := by
      rw [hm]
      exact notifyLoop_append ok l1 f l2 h1 hf
    have htr : cycleTrace seen now cands ok =
        (processListings seen now cands).1.map (fun c => Event.upsert c.id) ++
          [Event.persist] ++ (l1.map Event.notify ++ [Event.notifyFail f]) ++
          [Event.logError] := by
      simp only [cycleTrace, hnl, hne, Bool.false_eq_true, if_false,
        Bool.true_eq_false, List.append_assoc]
    rw [htr]
    refine ⟨by simp, by simp, ?_⟩
    intro m hm2
    have hmnotl1 : m ∉ l1 := by
      rcases List.nodup_append.mp hnd with ⟨_, _, hdisj⟩
      intro hml1
      exact hdisj hml1 (List.mem_cons_of_mem f hm2)
    have hmnef : m ≠ f := by
      rcases List.nodup_append.mp hnd with ⟨_, hnd2, _⟩
      intro heq
      exact (List.nodup_cons.mp hnd2).1 (heq ▸ hm2)
    exact ⟨fun hmem => hmnotl1 (notify_mem_shape hmem),
      fun hmem => hmnef (notifyFail_mem_shape hmem)⟩

/-- C7 witness: two new listings, the delivery of the first listing
message rejects: the theorem applies with l1 the header, f the first
listing message, l2 the second; the second listing message is never
attempted while the persist and the logged failure are in the trace. -/
theorem C7_failure_isolation_witness :
    (cycleMessages [] 0 [⟨"1", "u1"⟩, ⟨"2", "u2"⟩] =
        [headerMessage 2] ++ listingMessage 1 2 "u1" ::
          [listingMessage 2 2 "u2"] ∧
      (∀ x ∈ [headerMessage 2],
        (fun m => !(m == listingMessage 1 2 "u1")) x = true) ∧
      (fun m => !(m == listingMessage 1 2 "u1")) (listingMessage 1 2 "u1") =
        false ∧
      ([headerMessage 2] ++ listingMessage 1 2 "u1" ::
        [listingMessage 2 2 "u2"]).Nodup) ∧
    (Event.persist ∈ cycleTrace [] 0 [⟨"1", "u1"⟩, ⟨"2", "u2"⟩]
        (fun m => !(m == listingMessage 1 2 "u1")) ∧
      Event.logError ∈ cycleTrace [] 0 [⟨"1", "u1"⟩, ⟨"2", "u2"⟩]
        (fun m => !(m == listingMessage 1 2 "u1")) ∧
      ∀ m ∈ [listingMessage 2 2 "u2"],
        Event.notify m ∉ cycleTrace [] 0 [⟨"1", "u1"⟩, ⟨"2", "u2"⟩]
          (fun m => !(m == listingMessage 1 2 "u1")) ∧
        Event.notifyFail m ∉ cycleTrace [] 0 [⟨"1", "u1"⟩, ⟨"2", "u2"⟩]
          (fun m => !(m == listingMessage 1 2 "u1"))) :=
  ⟨⟨by decide, by decide, by decide, by decide⟩,
    C7_failure_isolation [] 0 [⟨"1", "u1"⟩, ⟨"2", "u2"⟩]
      (fun m => !(m == listingMessage 1 2 "u1"))
      [headerMessage 2] (listingMessage 1 2 "u1") [listingMessage 2 2 "u2"]
      (by decide) (by decide) (by decide) (by decide)⟩

/-- C7 counterexample: with two new listings and the first listing
delivery rejecting, the second listing message is never attempted: the
failure DOES block the remaining notifications of the cycle, refuting the
claim (the persist step, which already ran, is the only part preserved). -/
theorem C7_failure_counterexample :
    Event.notify (listingMessage 2 2 "u2") ∉
      cycleTrace [] 0 [⟨"1", "u1"⟩, ⟨"2", "u2"⟩]
        (fun m => !(m == listingMessage 1 2 "u1")) ∧
    Event.notifyFail (listingMessage 2 2 "u2") ∉
      cycleTrace [] 0 [⟨"1", "u1"⟩, ⟨"2", "u2"⟩]
        (fun m => !(m == listingMessage 1 2 "u1")) ∧
    Event.persist ∈ cycleTrace [] 0 [⟨"1", "u1"⟩, ⟨"2", "u2"⟩]
      (fun m => !(m == listingMessage 1 2 "u1")) :=
  ⟨by decide, by decide, by decide⟩

/-- C9 (amended): the store is persisted at the end of every cycle whose
fetch finds at least one candidate, whether or not any candidate is new;
a cycle in which the adapter returns zero candidates returns early,
before saveSeenListings, and does not persist. -/
theorem C9_persist_each_cycle (seen : Store) (now : Nat)
    (cands : List Candidate) (ok : String → Bool) (h : cands ≠ []) :
    Event.persist ∈ cycleTrace seen now cands ok := by
  have hne : cands.isEmpty = false := by
    cases cands with
    | nil => exact absurd rfl h
    | cons c cs => rfl
  simp only [cycleTrace, hne, Bool.false_eq_true, if_false]
  simp

/-- C9 witness: one candidate already present in the store: no new
listing, yet the persist event is in the trace. -/
theorem C9_persist_witness :
    ([⟨"1", "u1"⟩] : List Candidate) ≠ [] ∧
    Event.persist ∈ cycleTrace [("1", newRecord ⟨"1", "u1"⟩ 0)] 5
      [⟨"1", "u1"⟩] (fun _ => true) :=
  ⟨by decide,
    C9_persist_each_cycle [("1", newRecord ⟨"1", "u1"⟩ 0)] 5
      [⟨"1", "u1"⟩] (fun _ => true) (by decide)⟩

/-- C9 counterexample: a cycle in which the adapter returns zero
candidates (while the store is nonempty) produces no persist event: the
early return skips saveSeenListings, refuting the claim that the store is
persisted in every cycle including zero-candidate ones. -/
theorem C9_persist_counterexample :
    Event.persist ∉
      cycleTrace [("9", ⟨"9", "u9", 3, "immoscout"⟩)] 5 [] (fun _ => true) := by
  decide

/-! ### The retry loop of checkFilteredPage

checkFilteredPage runs while retryCount < MAX_RETRIES: it attempts the
page check; on success it breaks out; on failure it increments
retryCount, rethrows when retryCount reached MAX_RETRIES, and otherwise
waits a hardcoded 5000 ms (the value of INITIAL_RETRY_DELAY, with no
exponential factor) before the next attempt.  attemptOk gives the outcome
of the attempt at each retryCount. -/

structure RetryResult where
  delays : List Nat
  attempts : Nat
  succeeded : Bool
deriving DecidableEq, Repr

/-- The loop body, with fuel MAX_RETRIES - retryCount so the recursion is
structural; the source loop condition retryCount < MAX_RETRIES is the
fuel being positive. -/
def checkFilteredPageGo (attemptOk : Nat → Bool) : Nat → Nat → RetryResult
  | 0, _ => ⟨[], 0, false⟩
  | fuel + 1, retryCount =>
      if attemptOk retryCount then ⟨[], 1, true⟩
      else if retryCount + 1 = MAX_RETRIES then ⟨[], 1, false⟩
      else
        let r := checkFilteredPageGo attemptOk fuel (retryCount + 1)
        ⟨5000 :: r.delays, r.attempts + 1, r.succeeded⟩

/-- checkFilteredPage: the loop started at retryCount = 0.  delays lists
the waits inserted before each re-entry of FETCHING, attempts counts the
attempts made, and succeeded is false exactly when the final failure was
rethrown to the caller, abandoning the cycle. -/
def checkFilteredPage (attemptOk : Nat → Bool) : RetryResult :=
  checkFilteredPageGo attemptOk MAX_RETRIES 0

theorem checkFilteredPageGo_delays_const (attemptOk : Nat → Bool) :
    ∀ fuel rc, ((checkFilteredPageGo attemptOk fuel rc).delays).all
      (fun d => d == INITIAL_RETRY_DELAY) = true := by
  intro fuel
  induction fuel with
  | zero => intro rc; rfl
  | succ n ih =>
      intro rc
      simp only [checkFilteredPageGo]
      split
      · rfl
      · split
        · rfl
        · simp only [List.all_cons, ih (rc + 1), Bool.and_true]
          rfl

theorem checkFilteredPageGo_attempts_le (attemptOk : Nat → Bool) :
    ∀ fuel rc, (checkFilteredPageGo attemptOk fuel rc).attempts ≤ fuel := by
  intro fuel
  induction fuel with
  | zero => intro rc; exact Nat.le_refl 0
  | succ n ih =>
      intro rc
      simp only [checkFilteredPageGo]
      split
      · exact Nat.le_add_left 1 n
      · split
        · exact Nat.le_add_left 1 n
        · exact Nat.succ_le_succ (ih (rc + 1))

/-- C8 (amended): a failed fetch is retried with the retry counter
bounded at MAX_RETRIES (3 attempts in total) and a constant delay of
INITIAL_RETRY_DELAY = 5000 ms before each re-entry (the source hardcodes
5000; there is no exponential factor); when every attempt fails, the loop
makes exactly MAX_RETRIES attempts with MAX_RETRIES - 1 constant delays
and rethrows, abandoning the cycle for that check. -/
theorem C8_retry_bounded_constant_delay (attemptOk : Nat → Bool) :
    ((checkFilteredPage attemptOk).delays.all
      (fun d => d == INITIAL_RETRY_DELAY) = true) ∧
    (checkFilteredPage attemptOk).attempts ≤ MAX_RETRIES ∧
    ((∀ i, attemptOk i = false) →
      checkFilteredPage attemptOk = ⟨[5000, 5000], 3, false⟩) := by
  refine ⟨checkFilteredPageGo_delays_const attemptOk MAX_RETRIES 0,
    checkFilteredPageGo_attempts_le attemptOk MAX_RETRIES 0, ?_⟩
  intro hfail
  show checkFilteredPageGo attemptOk MAX_RETRIES 0 = ⟨[5000, 5000], 3, false⟩
  simp only [MAX_RETRIES, checkFilteredPageGo, hfail 0, hfail 1, hfail 2,
    Bool.false_eq_true, if_false]
  rfl

/-- C8 witness: applying the theorem to the always-failing attempt
function. -/
theorem C8_retry_witness :
    (((checkFilteredPage (fun _ => false)).delays.all
      (fun d => d == INITIAL_RETRY_DELAY)) = true) ∧
    (checkFilteredPage (fun _ => false)).attempts ≤ MAX_RETRIES ∧
    checkFilteredPage (fun _ => false) = ⟨[5000, 5000], 3, false⟩ :=
  ⟨(C8_retry_bounded_constant_delay (fun _ => false)).1,
    (C8_retry_bounded_constant_delay (fun _ => false)).2.1,
    (C8_retry_bounded_constant_delay (fun _ => false)).2.2 (fun _ => rfl)⟩

/-- C8 counterexample: when every attempt fails, the two delays inserted
before the re-entries are both 5000 ms; under either reading of the
claimed exponential schedule INITIAL_RETRY_DELAY * 2 ^ retryCount, at
least the second delay would have to double, so the code does not
implement exponential backoff. -/
theorem C8_backoff_counterexample :
    (checkFilteredPage (fun _ => false)).delays = [5000, 5000] ∧
    (checkFilteredPage (fun _ => false)).delays ≠
      [INITIAL_RETRY_DELAY * 2 ^ 0, INITIAL_RETRY_DELAY * 2 ^ 1] ∧
    (checkFilteredPage (fun _ => false)).delays ≠
      [INITIAL_RETRY_DELAY * 2 ^ 1, INITIAL_RETRY_DELAY * 2 ^ 2] :=
  ⟨by decide, by decide, by decide⟩

/-! ### Run-once mode of main

With the --once flag, main runs checkAllServices inside try/catch/finally:
a failure of the cycle is caught and logged, and the finally block awaits
cleanup (which awaits browserInstance.close) and then calls
process.exit(0).  The close call is an external async call and can itself
reject; in that case the rest of the finally block, including
process.exit(0), is skipped, the promise of main rejects, and the
top-level main().catch logs the error and calls process.exit(1). -/

inductive MainEvent where
  | logSuccess
  | logFailure (msg : String)
  | cleanup
  | cleanupFail (msg : String)
  | logAppError
  | exitCode (n : Nat)
deriving DecidableEq, Repr

/-- The trace of the run-once branch of main, as a function of the
outcome of the single checkAllServices cycle and of the browser close
awaited by cleanup in the finally block. -/
def runOnceTrace (cycle : Except String Unit) (close : Except String Unit) :
    List MainEvent :=
  (match cycle with
    | Except.ok _ => [MainEvent.logSuccess]
    | Except.error e => [MainEvent.logFailure e]) ++
  (match close with
    | Except.ok _ => [MainEvent.cleanup, MainEvent.exitCode 0]
    | Except.error c =>
        [MainEvent.cleanupFail c, MainEvent.logAppError, MainEvent.exitCode 1])

/-- The exit status of a trace: the first exitCode event terminates the
process. -/
def finalExitCode (tr : List MainEvent) : Option Nat :=
  tr.findSome? (fun e =>
    match e with
    | MainEvent.exitCode n => some n
    | _ => none)

/-- C10 (amended): in run-once mode the outcome of the single cycle never
causes a non-zero exit: whenever the browser cleanup in the finally block
completes, the process exits 0 whether the cycle succeeds or throws, the
failure having been caught and logged and the browser cleaned up; but
when the close call awaited by cleanup rejects, process.exit(0) is
skipped and the top-level catch exits 1, so the exit code is not
unconditionally 0. -/
theorem C10_run_once_exit (cycle : Except String Unit) :
    (finalExitCode (runOnceTrace cycle (Except.ok ())) = some 0 ∧
      MainEvent.cleanup ∈ runOnceTrace cycle (Except.ok ())) ∧
    ∀ c : String,
      finalExitCode (runOnceTrace cycle (Except.error c)) = some 1 := by
  cases cycle with
  | ok u => exact ⟨⟨rfl, by simp [runOnceTrace]⟩, fun c => rfl⟩
  | error e => exact ⟨⟨rfl, by simp [runOnceTrace]⟩, fun c => rfl⟩

/-- C10 counterexample: a run-once execution whose single cycle succeeds
but whose browser close rejects in the finally block never reaches
process.exit(0): the rejection propagates out of main and the top-level
catch exits with status 1, refuting the claim that run-once mode always
terminates with exit code 0, never non-zero. -/
theorem C10_exit_counterexample :
    finalExitCode (runOnceTrace (Except.ok ()) (Except.error "close failed")) =
      some 1 ∧
    ¬ finalExitCode (runOnceTrace (Except.ok ()) (Except.error "close failed")) =
      some 0 :=
  ⟨by decide, by decide⟩

end ImmoSearch
